import Mathlib

/-!
Verification of the ETF daily-briefing scraper pipeline.

Strings are modelled as `List Char` (one element per Unicode code point, matching
Python's `str` indexing and `len`).  Each definition is a direct translation of
the corresponding Python function in the repository; fallible steps are made
explicit with `Option`/`Except`, and `asyncio` timeouts are modelled by explicit
oracles recording whether an operation exceeded its bound.
-/

namespace ETFBriefing

/-! ### Basic Python string operations over `List Char` -/

/-- Python `str.strip()`: remove leading and trailing whitespace. -/
def pyStrip (s : List Char) : List Char :=
  ((s.dropWhile Char.isWhitespace).reverse.dropWhile Char.isWhitespace).reverse

/-- Python `str.replace(" ", "")`: remove every space character. -/
def removeSpaces (s : List Char) : List Char :=
  s.filter (fun c => c ≠ ' ')

/-- Auxiliary for `pySplitOn`, with explicit fuel (the fuel is always sufficient
at the call site; the `0` case only keeps the function structurally recursive). -/
def pySplitAux (sep : List Char) : Nat → List Char → List Char → List (List Char)
  | 0, acc, s => [acc.reverse ++ s]
  | _ + 1, acc, [] => [acc.reverse]
  | fuel + 1, acc, c :: rest =>
      if sep.isPrefixOf (c :: rest) then
        acc.reverse :: pySplitAux sep fuel [] (List.drop sep.length (c :: rest))
      else
        pySplitAux sep fuel (c :: acc) rest

/-- Python `s.split(sep)` for a non-empty separator: split at every
non-overlapping, leftmost-first occurrence of `sep`. -/
def pySplitOn (sep s : List Char) : List (List Char) :=
  if sep.isEmpty then [s] else pySplitAux sep (s.length + 1) [] s

/-- Python `s.split()` (no argument): split on whitespace runs, no empty parts. -/
def pySplitWs (s : List Char) : List (List Char) :=
  (s.splitOnP Char.isWhitespace).filter (fun p => ¬ p.isEmpty)

/-- Python `s.replace(pat, "", 1)` for non-empty `pat`: remove the first
occurrence of `pat`, if any. -/
def replaceFirstEmpty (pat : List Char) : List Char → List Char
  | [] => []
  | c :: rest =>
      if pat.isPrefixOf (c :: rest) then List.drop pat.length (c :: rest)
      else c :: replaceFirstEmpty pat rest

/-! ### Delivery chunking (`telegram_sender.send_html_content`, lines 251–278)

The composed message is cut into slices of at most `MAX_LENGTH` characters; the
first slice is sent unmodified and every later slice is sent with the fixed
continuation marker `"(계속) "` prefixed. -/

/-- `MAX_LENGTH = 3000` from `send_html_content`. -/
def MAX_LENGTH : Nat := 3000

/-- The continuation marker `"(계속) "` prefixed to every chunk after the first. -/
def continuation_marker : List Char := "(계속) ".toList

/-- The `while remaining_text:` loop of `send_html_content`: repeatedly take the
next `MAX_LENGTH` characters.  Fuel-based for structural recursion; the fuel at
the call site is the text length, which always suffices. -/
def chunk_loop : Nat → List Char → List (List Char)
  | _, [] => []
  | 0, s => [s]
  | fuel + 1, s => List.take MAX_LENGTH s :: chunk_loop fuel (List.drop MAX_LENGTH s)

/-- The list `messages` built by `send_html_content`: the first chunk
(`full_message[:MAX_LENGTH]`) followed by the chunks of the remainder. -/
def chunk_messages (full : List Char) : List (List Char) :=
  List.take MAX_LENGTH full :: chunk_loop full.length (List.drop MAX_LENGTH full)

/-- The payloads actually handed to `send_message`: chunk `i` is prefixed with
the continuation marker whenever `i > 0`. -/
def sent_messages (full : List Char) : List (List Char) :=
  match chunk_messages full with
  | [] => []
  | first :: rest => first :: rest.map (fun m => continuation_marker ++ m)

/-- Reconstruction used in the round-trip property: keep the first payload,
strip the continuation marker (a fixed-length prefix) from every later payload,
and concatenate. -/
def strip_marker_join : List (List Char) → List Char
  | [] => []
  | first :: rest =>
      first ++ (rest.map (fun m => List.drop continuation_marker.length m)).flatten

theorem chunk_loop_flatten (fuel : Nat) (s : List Char) :
    (chunk_loop fuel s).flatten = s := by
  induction fuel generalizing s with
  | zero =>
      cases s with
      | nil => simp [chunk_loop]
      | cons c rest => simp [chunk_loop]
  | succ fuel ih =>
      cases s with
      | nil => simp [chunk_loop]
      | cons c rest =>
          simp only [chunk_loop, List.flatten_cons, ih]
          exact List.take_append_drop _ _

theorem chunk_loop_length_le (fuel : Nat) (s : List Char) (h : s.length ≤ fuel) :
    ∀ c ∈ chunk_loop fuel s, c.length ≤ MAX_LENGTH := by
  induction fuel generalizing s with
  | zero =>
      intro c hc
      cases s with
      | nil => simp [chunk_loop] at hc
      | cons a rest => simp at h
  | succ fuel ih =>
      intro c hc
      cases s with
      | nil => simp [chunk_loop] at hc
      | cons a rest =>
          simp only [chunk_loop, List.mem_cons] at hc
          rcases hc with rfl | hc
          · rw [List.length_take]
            exact min_le_left _ _
          · refine ih _ ?_ c hc
            simp only [List.length_drop, List.length_cons, MAX_LENGTH] at *
            omega

/-- Claim C5: for every composed text, keeping the first delivered payload,
stripping the continuation marker from every later payload and concatenating
reconstructs the composed text exactly (including when the text length is an
exact multiple of `MAX_LENGTH`). -/
theorem C5_chunk_round_trip (full : List Char) :
    strip_marker_join (sent_messages full) = full := by
  simp only [sent_messages, chunk_messages, strip_marker_join, List.map_map]
  have hfun : ((fun m : List Char => List.drop continuation_marker.length m) ∘
      (fun m : List Char => continuation_marker ++ m)) = id := by
    funext m
    simp only [Function.comp_apply, id_eq]
    exact List.drop_left _ _
  rw [hfun, List.map_id, chunk_loop_flatten]
  exact List.take_append_drop _ _

theorem chunk_loop_nil (fuel : Nat) : chunk_loop fuel [] = [] := by
  cases fuel <;> rfl

theorem chunk_loop_step (fuel : Nat) (s : List Char) (h0 : 0 < fuel) (hs : s ≠ []) :
    chunk_loop fuel s =
      List.take MAX_LENGTH s :: chunk_loop (fuel - 1) (List.drop MAX_LENGTH s) := by
  cases fuel with
  | zero => exact absurd h0 (by omega)
  | succ f =>
      cases s with
      | nil => exact absurd rfl hs
      | cons c r => rfl

/-- Claim C2 amended: every payload handed to the delivery channel has length at
most `MAX_LENGTH` plus the length of the continuation marker (3000 + 5 = 3005);
the bound `MAX_LENGTH` itself holds only for the marker-free slices. -/
theorem C2_chunk_length_amended (full : List Char) (m : List Char)
    (hm : m ∈ sent_messages full) :
    m.length ≤ MAX_LENGTH + continuation_marker.length := by
  simp only [sent_messages, chunk_messages] at hm
  rcases List.mem_cons.mp hm with rfl | hm
  · rw [List.length_take]
    have := min_le_left MAX_LENGTH full.length
    omega
  · rcases List.mem_map.mp hm with ⟨c, hc, rfl⟩
    have hlen : c.length ≤ MAX_LENGTH := by
      refine chunk_loop_length_le _ _ ?_ c hc
      rw [List.length_drop]
      omega
    rw [List.length_append]
    omega

/-- Witness for `C2_chunk_length_amended` at a concrete one-chunk message. -/
theorem C2_chunk_length_amended_witness :
    "ab".toList ∈ sent_messages ("ab".toList) ∧
      ("ab".toList).length ≤ MAX_LENGTH + continuation_marker.length :=
  ⟨by decide, C2_chunk_length_amended ("ab".toList) ("ab".toList) (by decide)⟩

/-- Claim C2 counterexample: for a 6000-character composed text the second
delivered payload is the continuation marker plus a full 3000-character slice,
so its length is 3005, exceeding `maxChunkLength = 3000`. -/
theorem C2_chunk_length_counterexample :
    3000 < ((sent_messages (List.replicate 6000 'a')).getD 1 []).length := by
  have hmin : min MAX_LENGTH 6000 = 3000 := by decide
  have hsub : 6000 - MAX_LENGTH = 3000 := by decide
  have hne : List.replicate 3000 'a' ≠ ([] : List Char) := by
    intro h
    have hlen := congrArg List.length h
    rw [List.length_replicate, List.length_nil] at hlen
    omega
  have hchunks : chunk_messages (List.replicate 6000 'a') =
      [List.replicate 3000 'a', List.replicate 3000 'a'] := by
    unfold chunk_messages
    rw [List.length_replicate, List.take_replicate, List.drop_replicate, hmin, hsub]
    rw [chunk_loop_step 6000 _ (by omega) hne]
    have hm2 : min MAX_LENGTH 3000 = 3000 := by decide
    have h0 : (3000 : Nat) - MAX_LENGTH = 0 := by decide
    rw [List.take_replicate, List.drop_replicate, hm2, h0, List.replicate_zero,
      chunk_loop_nil]
  have hsent : sent_messages (List.replicate 6000 'a') =
      [List.replicate 3000 'a', continuation_marker ++ List.replicate 3000 'a'] := by
    unfold sent_messages
    rw [hchunks]
    rfl
  rw [hsent]
  have hmark : continuation_marker.length = 5 := by decide
  show 3000 < (continuation_marker ++ List.replicate 3000 'a').length
  rw [List.length_append, hmark, List.length_replicate]
  omega

/-! ### Batch ordering (`main.run_scraper`, lines 45–51)

`sorted(tickers, key=lambda x: default_order.index(x) if x in default_order
else len(default_order))` is a stable sort by the canonical-order index;
Python's stable `sorted` is modelled by Mathlib's stable `List.insertionSort`. -/

def igv : List Char := "IGV".toList

def soxl : List Char := "SOXL".toList

def blk : List Char := "BLK".toList

def ivz : List Char := "IVZ".toList

def brku : List Char := "BRKU".toList

/-- The canonical priority order `["IGV", "SOXL", "BLK", "IVZ", "BRKU"]`. -/
def default_order : List (List Char) := [igv, soxl, blk, ivz, brku]

/-- `l.index(x)` for the first occurrence; returns `l.length` when `x` is
absent, which is exactly the `else len(default_order)` branch of the sort key. -/
def listIndex (x : List Char) : List (List Char) → Nat
  | [] => 0
  | y :: ys => if y = x then 0 else listIndex x ys + 1

/-- The sort key `default_order.index(x) if x in default_order else
len(default_order)`. -/
def tickerKey (t : List Char) : Nat := listIndex t default_order

/-- The comparison used by the stable sort. -/
def tickerLE (a b : List Char) : Prop := tickerKey a ≤ tickerKey b

instance : DecidableRel tickerLE := fun _ _ => Nat.decLe _ _

/-- `sorted(tickers, key=...)`: stable sort of the submitted tickers by
canonical index. -/
def sortTickers (ts : List (List Char)) : List (List Char) :=
  List.insertionSort tickerLE ts

/-- Spec-side characterisation (from the spec's words, for the refinement
statement): all copies of each canonical ticker in canonical order, followed by
the unknown tickers in their original relative order. -/
def canonicalArranged (ts : List (List Char)) : List (List Char) :=
  ts.filter (fun t => decide (t = igv)) ++ (ts.filter (fun t => decide (t = soxl)) ++
    (ts.filter (fun t => decide (t = blk)) ++ (ts.filter (fun t => decide (t = ivz)) ++
      (ts.filter (fun t => decide (t = brku)) ++
        ts.filter (fun t => decide (t ∉ default_order))))))

theorem orderedInsert_skip {α : Type} (r : α → α → Prop) [DecidableRel r] (t : α)
    (l₁ l₂ : List α) (h : ∀ b ∈ l₁, ¬ r t b) :
    List.orderedInsert r t (l₁ ++ l₂) = l₁ ++ List.orderedInsert r t l₂ := by
  induction l₁ with
  | nil => rfl
  | cons b l ih =>
      simp only [List.cons_append, List.orderedInsert, List.append_eq]
      rw [if_neg (h b (List.mem_cons_self b l)), ih (fun x hx => h x (List.mem_cons_of_mem b hx))]

theorem orderedInsert_front {α : Type} (r : α → α → Prop) [DecidableRel r] (t : α)
    (l : List α) (h : ∀ b ∈ l, r t b) :
    List.orderedInsert r t l = t :: l := by
  cases l with
  | nil => rfl
  | cons b rest =>
      simp only [List.orderedInsert]
      rw [if_pos (h b (List.mem_cons_self b rest))]

theorem eq_of_mem_filter_eq {ts : List (List Char)} {c b : List Char}
    (hb : b ∈ ts.filter (fun t => decide (t = c))) : b = c :=
  of_decide_eq_true (List.mem_filter.mp hb).2

theorem tickerKey_of_not_mem (b : List Char) (h : b ∉ default_order) :
    tickerKey b = 5 := by
  simp only [default_order, List.mem_cons, List.not_mem_nil, or_false, not_or] at h
  obtain ⟨h1, h2, h3, h4, h5⟩ := h
  simp only [tickerKey, listIndex, default_order]
  rw [if_neg (fun he => h1 he.symm), if_neg (fun he => h2 he.symm),
    if_neg (fun he => h3 he.symm), if_neg (fun he => h4 he.symm),
    if_neg (fun he => h5 he.symm)]

theorem key_mem_filter_unknown {ts : List (List Char)} {b : List Char}
    (hb : b ∈ ts.filter (fun t => decide (t ∉ default_order))) : tickerKey b = 5 :=
  tickerKey_of_not_mem b (of_decide_eq_true (List.mem_filter.mp hb).2)

theorem skip_hyp (c t : List Char) (hk : ¬ tickerKey t ≤ tickerKey c)
    (ts : List (List Char)) :
    ∀ b ∈ ts.filter (fun x => decide (x = c)), ¬ tickerLE t b := by
  intro b hb
  rw [eq_of_mem_filter_eq hb]
  exact hk

theorem front_hyp_append {t : List Char} {l₁ l₂ : List (List Char)}
    (h₁ : ∀ b ∈ l₁, tickerLE t b) (h₂ : ∀ b ∈ l₂, tickerLE t b) :
    ∀ b ∈ l₁ ++ l₂, tickerLE t b := by
  intro b hb
  rcases List.mem_append.mp hb with hb | hb
  exacts [h₁ b hb, h₂ b hb]

theorem front_hyp_filter (c t : List Char) (hk : tickerKey t ≤ tickerKey c)
    (ts : List (List Char)) :
    ∀ b ∈ ts.filter (fun x => decide (x = c)), tickerLE t b := by
  intro b hb
  rw [eq_of_mem_filter_eq hb]
  exact hk

theorem front_hyp_unknown (t : List Char) (hk : tickerKey t ≤ 5)
    (ts : List (List Char)) :
    ∀ b ∈ ts.filter (fun x => decide (x ∉ default_order)), tickerLE t b := by
  intro b hb
  show tickerKey t ≤ tickerKey b
  rw [key_mem_filter_unknown hb]
  exact hk

theorem sortTickers_eq_canonical (ts : List (List Char)) :
    sortTickers ts = canonicalArranged ts := by
  induction ts with
  | nil => rfl
  | cons t ts ih =>
      have hstep : sortTickers (t :: ts) = List.orderedInsert tickerLE t (sortTickers ts) := rfl
      rw [hstep, ih]
      unfold canonicalArranged
      by_cases h1 : t = igv
      · subst h1
        rw [orderedInsert_front tickerLE igv _
          (front_hyp_append (front_hyp_filter igv igv (by decide) ts)
            (front_hyp_append (front_hyp_filter soxl igv (by decide) ts)
              (front_hyp_append (front_hyp_filter blk igv (by decide) ts)
                (front_hyp_append (front_hyp_filter ivz igv (by decide) ts)
                  (front_hyp_append (front_hyp_filter brku igv (by decide) ts)
                    (front_hyp_unknown igv (by decide) ts))))))]
        rw [List.filter_cons_of_pos (by decide), List.filter_cons_of_neg (by decide),
          List.filter_cons_of_neg (by decide), List.filter_cons_of_neg (by decide),
          List.filter_cons_of_neg (by decide), List.filter_cons_of_neg (by decide)]
        simp only [List.cons_append]
      by_cases h2 : t = soxl
      · subst h2
        rw [orderedInsert_skip tickerLE soxl _ _ (skip_hyp igv soxl (by decide) ts)]
        rw [orderedInsert_front tickerLE soxl _
          (front_hyp_append (front_hyp_filter soxl soxl (by decide) ts)
            (front_hyp_append (front_hyp_filter blk soxl (by decide) ts)
              (front_hyp_append (front_hyp_filter ivz soxl (by decide) ts)
                (front_hyp_append (front_hyp_filter brku soxl (by decide) ts)
                  (front_hyp_unknown soxl (by decide) ts)))))]
        rw [List.filter_cons_of_neg (by decide), List.filter_cons_of_pos (by decide),
          List.filter_cons_of_neg (by decide), List.filter_cons_of_neg (by decide),
          List.filter_cons_of_neg (by decide), List.filter_cons_of_neg (by decide)]
        simp only [List.cons_append]
      by_cases h3 : t = blk
      · subst h3
        rw [orderedInsert_skip tickerLE blk _ _ (skip_hyp igv blk (by decide) ts)]
        rw [orderedInsert_skip tickerLE blk _ _ (skip_hyp soxl blk (by decide) ts)]
        rw [orderedInsert_front tickerLE blk _
          (front_hyp_append (front_hyp_filter blk blk (by decide) ts)
            (front_hyp_append (front_hyp_filter ivz blk (by decide) ts)
              (front_hyp_append (front_hyp_filter brku blk (by decide) ts)
                (front_hyp_unknown blk (by decide) ts))))]
        rw [List.filter_cons_of_neg (by decide), List.filter_cons_of_neg (by decide),
          List.filter_cons_of_pos (by decide), List.filter_cons_of_neg (by decide),
          List.filter_cons_of_neg (by decide), List.filter_cons_of_neg (by decide)]
        simp only [List.cons_append]
      by_cases h4 : t = ivz
      · subst h4
        rw [orderedInsert_skip tickerLE ivz _ _ (skip_hyp igv ivz (by decide) ts)]
        rw [orderedInsert_skip tickerLE ivz _ _ (skip_hyp soxl ivz (by decide) ts)]
        rw [orderedInsert_skip tickerLE ivz _ _ (skip_hyp blk ivz (by decide) ts)]
        rw [orderedInsert_front tickerLE ivz _
          (front_hyp_append (front_hyp_filter ivz ivz (by decide) ts)
            (front_hyp_append (front_hyp_filter brku ivz (by decide) ts)
              (front_hyp_unknown ivz (by decide) ts)))]
        rw [List.filter_cons_of_neg (by decide), List.filter_cons_of_neg (by decide),
          List.filter_cons_of_neg (by decide), List.filter_cons_of_pos (by decide),
          List.filter_cons_of_neg (by decide), List.filter_cons_of_neg (by decide)]
        simp only [List.cons_append]
      by_cases h5 : t = brku
      · subst h5
        rw [orderedInsert_skip tickerLE brku _ _ (skip_hyp igv brku (by decide) ts)]
        rw [orderedInsert_skip tickerLE brku _ _ (skip_hyp soxl brku (by decide) ts)]
        rw [orderedInsert_skip tickerLE brku _ _ (skip_hyp blk brku (by decide) ts)]
        rw [orderedInsert_skip tickerLE brku _ _ (skip_hyp ivz brku (by decide) ts)]
        rw [orderedInsert_front tickerLE brku _
          (front_hyp_append (front_hyp_filter brku brku (by decide) ts)
            (front_hyp_unknown brku (by decide) ts))]
        rw [List.filter_cons_of_neg (by decide), List.filter_cons_of_neg (by decide),
          List.filter_cons_of_neg (by decide), List.filter_cons_of_neg (by decide),
          List.filter_cons_of_pos (by decide), List.filter_cons_of_neg (by decide)]
        simp only [List.cons_append]
      · have hmem : t ∉ default_order := by
          simp only [default_order, List.mem_cons, List.not_mem_nil, or_false, not_or]
          exact ⟨h1, h2, h3, h4, h5⟩
        have hkey : tickerKey t = 5 := tickerKey_of_not_mem t hmem
        rw [orderedInsert_skip tickerLE t _ _ (skip_hyp igv t (by rw [hkey]; decide) ts)]
        rw [orderedInsert_skip tickerLE t _ _ (skip_hyp soxl t (by rw [hkey]; decide) ts)]
        rw [orderedInsert_skip tickerLE t _ _ (skip_hyp blk t (by rw [hkey]; decide) ts)]
        rw [orderedInsert_skip tickerLE t _ _ (skip_hyp ivz t (by rw [hkey]; decide) ts)]
        rw [orderedInsert_skip tickerLE t _ _ (skip_hyp brku t (by rw [hkey]; decide) ts)]
        rw [orderedInsert_front tickerLE t _ (front_hyp_unknown t (by rw [hkey]) ts)]
        rw [List.filter_cons_of_neg (by simpa using h1),
          List.filter_cons_of_neg (by simpa using h2),
          List.filter_cons_of_neg (by simpa using h3),
          List.filter_cons_of_neg (by simpa using h4),
          List.filter_cons_of_neg (by simpa using h5),
          List.filter_cons_of_pos (by simpa using hmem)]

/-- Claim C6: the batch order follows the canonical priority order
`["IGV", "SOXL", "BLK", "IVZ", "BRKU"]` regardless of submission order, with
unknown tickers appended after all known ones in their original relative order;
in particular `["BRKU", "BLK", "IGV"]` is reordered to `["IGV", "BLK", "BRKU"]`. -/
theorem C6_batch_ordering :
    (∀ ts, sortTickers ts = canonicalArranged ts) ∧
      sortTickers [brku, blk, igv] = [igv, blk, brku] :=
  ⟨sortTickers_eq_canonical, by decide⟩

/-! ### Link normalization (`scraper.extract_news_links`, lines 562–586, and
`telegram_sender.send_html_content`, lines 157–189) -/

/-- Python's substring test `sub in s`. -/
def containsSub (sub : List Char) : List Char → Bool
  | [] => sub.isEmpty
  | c :: rest => sub.isPrefixOf (c :: rest) || containsSub sub rest

theorem prefixOf_append (l₁ l₂ l₃ : List Char) (h : l₁.isPrefixOf l₂ = true) :
    l₁.isPrefixOf (l₂ ++ l₃) = true :=
  List.isPrefixOf_iff_prefix.mpr
    ((List.isPrefixOf_iff_prefix.mp h).trans (List.prefix_append l₂ l₃))

theorem containsSub_nil_sub (s : List Char) : containsSub [] s = true := by
  induction s with
  | nil => rfl
  | cons c rest ih => simp [containsSub, List.isPrefixOf]

theorem containsSub_append_left (sub l r : List Char) (h : containsSub sub l = true) :
    containsSub sub (l ++ r) = true := by
  induction l with
  | nil =>
      have hsub : sub = [] := by
        simpa [containsSub, List.isEmpty_iff] using h
      simpa [hsub] using containsSub_nil_sub r
  | cons c rest ih =>
      simp only [containsSub, Bool.or_eq_true] at h
      simp only [List.cons_append, containsSub, Bool.or_eq_true]
      rcases h with h | h
      · left
        have := prefixOf_append sub (c :: rest) r h
        rwa [List.cons_append] at this
      · right
        exact ih h

theorem containsSub_append_right (sub l r : List Char) (h : containsSub sub r = true) :
    containsSub sub (l ++ r) = true := by
  induction l with
  | nil => simpa using h
  | cons c rest ih =>
      simp only [List.cons_append, containsSub, Bool.or_eq_true]
      right
      exact ih

/-- `"https://invest.zum.com"`, prepended to site-relative links. -/
def origin : List Char := "https://invest.zum.com".toList

/-- `base_url = f"https://invest.zum.com/{'etf' if ticker not in ['BLK', 'IVZ']
else 'stock'}/{ticker}/"`. -/
def base_url (ticker : List Char) : List Char :=
  "https://invest.zum.com/".toList ++
    (if ticker = blk ∨ ticker = ivz then "stock".toList else "etf".toList) ++
    "/".toList ++ ticker ++ "/".toList

def httpPre : List Char := "http".toList

def slashPre : List Char := "/".toList

def hashPre : List Char := "#".toList

def jsPre : List Char := "javascript:".toList

def docidKey : List Char := "docid=".toList

def doctypeNews : List Char := "doctype=news".toList

def qmark : List Char := "?".toList

def default_params : List Char :=
  "?doctype=news&docid=5384592&isdomestic=false&istrending=false".toList

/-- Lines 567–572 of `extract_news_links`: make the link absolute. -/
def absolutize_link (ticker link : List Char) : List Char :=
  if httpPre.isPrefixOf link then link
  else if slashPre.isPrefixOf link then origin ++ link
  else base_url ticker ++ link

/-- Lines 575–578 of `extract_news_links`: append the default news parameters
when both `docid=` and `doctype=news` are missing and the link has no query. -/
def ensure_docid_params (link : List Char) : List Char :=
  if !(containsSub docidKey link) && !(containsSub doctypeNews link) then
    if !(containsSub qmark link) then link ++ default_params else link
  else link

/-- The complete per-link normalization of `extract_news_links` (lines 566–580). -/
def normalize_news_link (ticker link : List Char) : List Char :=
  ensure_docid_params (absolutize_link ticker link)

theorem absolutize_link_http (ticker link : List Char) :
    httpPre.isPrefixOf (absolutize_link ticker link) = true := by
  unfold absolutize_link
  split
  · assumption
  split
  · exact prefixOf_append _ _ _ (by decide)
  · unfold base_url
    exact prefixOf_append _ _ _ (prefixOf_append _ _ _ (prefixOf_append _ _ _
      (prefixOf_append _ _ _ (prefixOf_append _ _ _ (by decide)))))

theorem absolutize_link_of_http (ticker l : List Char)
    (h : httpPre.isPrefixOf l = true) : absolutize_link ticker l = l := by
  unfold absolutize_link
  rw [if_pos h]

theorem ensure_docid_params_http (l : List Char) (h : httpPre.isPrefixOf l = true) :
    httpPre.isPrefixOf (ensure_docid_params l) = true := by
  unfold ensure_docid_params
  split
  · split
    · exact prefixOf_append _ _ _ h
    · exact h
  · exact h

theorem ensure_docid_params_idem (l : List Char) :
    ensure_docid_params (ensure_docid_params l) = ensure_docid_params l := by
  unfold ensure_docid_params
  by_cases hd : containsSub docidKey l = true
  · simp [hd]
  · by_cases ht : containsSub doctypeNews l = true
    · simp [hd, ht]
    · by_cases hq : containsSub qmark l = true
      · simp [hd, ht, hq]
      · have hdp : containsSub docidKey (l ++ default_params) = true :=
          containsSub_append_right _ _ _ (by decide)
        simp [hd, ht, hq, hdp]

/-- Idempotence of the `extract_news_links` normalization. -/
theorem normalize_news_link_idem (ticker link : List Char) :
    normalize_news_link ticker (normalize_news_link ticker link) =
      normalize_news_link ticker link := by
  unfold normalize_news_link
  rw [absolutize_link_of_http ticker _
    (ensure_docid_params_http _ (absolutize_link_http ticker link))]
  exact ensure_docid_params_idem _

def ampDoctype : List Char := "&doctype=news".toList

def qDoctype : List Char := "?doctype=news".toList

def ampDocid : List Char := "&docid=5384592".toList

def isdomesticKey : List Char := "isdomestic=".toList

def ampIsdomestic : List Char := "&isdomestic=false".toList

def istrendingKey : List Char := "istrending=".toList

def ampIstrending : List Char := "&istrending=false".toList

/-- `send_html_content` line 170–173: make the href absolute when it does not
start with `http`. -/
def tg_absolutize (ticker h : List Char) : List Char :=
  if httpPre.isPrefixOf h then h else base_url ticker ++ h

/-- `send_html_content` lines 176–180: append `doctype=news` when missing,
with `&` or `?` depending on whether a query already exists. -/
def tg_ensure_doctype (h : List Char) : List Char :=
  if containsSub doctypeNews h then h
  else if containsSub qmark h then h ++ ampDoctype else h ++ qDoctype

/-- A guarded append `if key not in href: href += add` (lines 182–189). -/
def tg_ensure (key add h : List Char) : List Char :=
  if containsSub key h then h else h ++ add

/-- `send_html_content` lines 167–189: when the href already mentions
`docid=` or `doctype=news`, complete the missing query parameters. -/
def tg_complete_params (ticker h : List Char) : List Char :=
  if containsSub docidKey h || containsSub doctypeNews h then
    tg_ensure istrendingKey ampIstrending
      (tg_ensure isdomesticKey ampIsdomestic
        (tg_ensure docidKey ampDocid
          (tg_ensure_doctype (tg_absolutize ticker h))))
  else h

/-- `send_html_content` lines 157–164 plus the parameter completion: the full
per-anchor href transformation; `none` models the `continue` that skips anchor
and javascript hrefs. -/
def tg_normalize_href (ticker h : List Char) : Option (List Char) :=
  if slashPre.isPrefixOf h then some (tg_complete_params ticker (origin ++ h))
  else if hashPre.isPrefixOf h || jsPre.isPrefixOf h then none
  else some (tg_complete_params ticker h)

theorem tg_ensure_contains (key add h : List Char)
    (hin : containsSub key add = true) :
    containsSub key (tg_ensure key add h) = true := by
  unfold tg_ensure
  split
  · assumption
  · exact containsSub_append_right _ _ _ hin

theorem tg_ensure_mono (key add sub h : List Char)
    (hs : containsSub sub h = true) :
    containsSub sub (tg_ensure key add h) = true := by
  unfold tg_ensure
  split
  · exact hs
  · exact containsSub_append_left _ _ _ hs

theorem tg_ensure_http (key add h : List Char)
    (hp : httpPre.isPrefixOf h = true) :
    httpPre.isPrefixOf (tg_ensure key add h) = true := by
  unfold tg_ensure
  split
  · exact hp
  · exact prefixOf_append _ _ _ hp

theorem tg_ensure_stable (key add h : List Char)
    (hin : containsSub key h = true) : tg_ensure key add h = h := by
  unfold tg_ensure
  rw [if_pos hin]

theorem tg_ensure_doctype_contains (h : List Char) :
    containsSub doctypeNews (tg_ensure_doctype h) = true := by
  unfold tg_ensure_doctype
  split
  · assumption
  split
  · exact containsSub_append_right _ _ _ (by decide)
  · exact containsSub_append_right _ _ _ (by decide)

theorem tg_ensure_doctype_mono (sub h : List Char)
    (hs : containsSub sub h = true) :
    containsSub sub (tg_ensure_doctype h) = true := by
  unfold tg_ensure_doctype
  split
  · exact hs
  split
  · exact containsSub_append_left _ _ _ hs
  · exact containsSub_append_left _ _ _ hs

theorem tg_ensure_doctype_http (h : List Char)
    (hp : httpPre.isPrefixOf h = true) :
    httpPre.isPrefixOf (tg_ensure_doctype h) = true := by
  unfold tg_ensure_doctype
  split
  · exact hp
  split
  · exact prefixOf_append _ _ _ hp
  · exact prefixOf_append _ _ _ hp

theorem tg_ensure_doctype_stable (h : List Char)
    (hin : containsSub doctypeNews h = true) : tg_ensure_doctype h = h := by
  unfold tg_ensure_doctype
  rw [if_pos hin]

theorem tg_absolutize_http (ticker h : List Char) :
    httpPre.isPrefixOf (tg_absolutize ticker h) = true := by
  unfold tg_absolutize
  split
  · assumption
  · unfold base_url
    exact prefixOf_append _ _ _ (prefixOf_append _ _ _ (prefixOf_append _ _ _
      (prefixOf_append _ _ _ (prefixOf_append _ _ _ (by decide)))))

theorem tg_absolutize_of_http (ticker h : List Char)
    (hp : httpPre.isPrefixOf h = true) : tg_absolutize ticker h = h := by
  unfold tg_absolutize
  rw [if_pos hp]

theorem head_of_http {l : List Char} (h : httpPre.isPrefixOf l = true) :
    ∃ t, l = 'h' :: t := by
  obtain ⟨t, ht⟩ := List.isPrefixOf_iff_prefix.mp h
  exact ⟨'t' :: 't' :: 'p' :: t, by rw [← ht]; rfl⟩

theorem not_slash_of_http {l : List Char} (h : httpPre.isPrefixOf l = true) :
    slashPre.isPrefixOf l = false := by
  obtain ⟨t, rfl⟩ := head_of_http h
  rfl

theorem not_hash_of_http {l : List Char} (h : httpPre.isPrefixOf l = true) :
    hashPre.isPrefixOf l = false := by
  obtain ⟨t, rfl⟩ := head_of_http h
  rfl

theorem not_js_of_http {l : List Char} (h : httpPre.isPrefixOf l = true) :
    jsPre.isPrefixOf l = false := by
  obtain ⟨t, rfl⟩ := head_of_http h
  rfl

/-- Core of the telegram idempotence argument: re-normalizing the output of
`tg_complete_params` leaves it unchanged, as long as the input was reachable
(either absolute, or not skipped by the anchor/javascript filter). -/
theorem tg_idem_core (ticker l : List Char)
    (hcase : httpPre.isPrefixOf l = true ∨
      (slashPre.isPrefixOf l = false ∧ hashPre.isPrefixOf l = false ∧
        jsPre.isPrefixOf l = false)) :
    tg_normalize_href ticker (tg_complete_params ticker l) =
      some (tg_complete_params ticker l) := by
  by_cases hg : (containsSub docidKey l || containsSub doctypeNews l) = true
  · -- the parameter-completion chain ran; its output is absolute and carries
    -- every parameter, so the second pass changes nothing
    have hchain : tg_complete_params ticker l =
        tg_ensure istrendingKey ampIstrending
          (tg_ensure isdomesticKey ampIsdomestic
            (tg_ensure docidKey ampDocid
              (tg_ensure_doctype (tg_absolutize ticker l)))) := by
      unfold tg_complete_params
      rw [if_pos hg]
    set o := tg_complete_params ticker l with ho
    have hhttp : httpPre.isPrefixOf o = true := by
      rw [hchain]
      exact tg_ensure_http _ _ _ (tg_ensure_http _ _ _ (tg_ensure_http _ _ _
        (tg_ensure_doctype_http _ (tg_absolutize_http ticker l))))
    have hdt : containsSub doctypeNews o = true := by
      rw [hchain]
      exact tg_ensure_mono _ _ _ _ (tg_ensure_mono _ _ _ _ (tg_ensure_mono _ _ _ _
        (tg_ensure_doctype_contains _)))
    have hdi : containsSub docidKey o = true := by
      rw [hchain]
      exact tg_ensure_mono _ _ _ _ (tg_ensure_mono _ _ _ _
        (tg_ensure_contains _ _ _ (by decide)))
    have hdo : containsSub isdomesticKey o = true := by
      rw [hchain]
      exact tg_ensure_mono _ _ _ _ (tg_ensure_contains _ _ _ (by decide))
    have htr : containsSub istrendingKey o = true := by
      rw [hchain]
      exact tg_ensure_contains _ _ _ (by decide)
    have hstable : tg_complete_params ticker o = o := by
      unfold tg_complete_params
      rw [if_pos (by rw [hdi]; rfl), tg_absolutize_of_http _ _ hhttp,
        tg_ensure_doctype_stable _ hdt, tg_ensure_stable _ _ _ hdi,
        tg_ensure_stable _ _ _ hdo, tg_ensure_stable _ _ _ htr]
    unfold tg_normalize_href
    rw [if_neg (by rw [not_slash_of_http hhttp]; exact Bool.false_ne_true),
      if_neg (by rw [not_hash_of_http hhttp, not_js_of_http hhttp]; exact Bool.false_ne_true),
      hstable]
  · -- no docid/doctype marker: the href passes through unchanged
    have ho : tg_complete_params ticker l = l := by
      unfold tg_complete_params
      rw [if_neg hg]
    rw [ho]
    unfold tg_normalize_href
    rcases hcase with hhttp | ⟨hs, hh, hj⟩
    · rw [if_neg (by rw [not_slash_of_http hhttp]; exact Bool.false_ne_true),
        if_neg (by rw [not_hash_of_http hhttp, not_js_of_http hhttp]; exact Bool.false_ne_true),
        ho]
    · rw [if_neg (by rw [hs]; exact Bool.false_ne_true),
        if_neg (by rw [hh, hj]; exact Bool.false_ne_true), ho]

/-- Idempotence of the `send_html_content` href normalization. -/
theorem tg_normalize_href_idem (ticker h o : List Char)
    (ho : tg_normalize_href ticker h = some o) :
    tg_normalize_href ticker o = some o := by
  unfold tg_normalize_href at ho
  by_cases hs : slashPre.isPrefixOf h = true
  · rw [if_pos hs] at ho
    obtain rfl := Option.some.inj ho
    exact tg_idem_core ticker (origin ++ h)
      (Or.inl (prefixOf_append _ _ _ (by decide)))
  · rw [if_neg hs] at ho
    by_cases hh : (hashPre.isPrefixOf h || jsPre.isPrefixOf h) = true
    · rw [if_pos hh] at ho
      cases ho
    · rw [if_neg hh] at ho
      obtain rfl := Option.some.inj ho
      have hs' : slashPre.isPrefixOf h = false := Bool.not_eq_true _ ▸ eq_false_of_ne_true hs
      have hhj : hashPre.isPrefixOf h = false ∧ jsPre.isPrefixOf h = false := by
        constructor <;> [skip; skip] <;>
          revert hh <;> cases hashPre.isPrefixOf h <;> cases jsPre.isPrefixOf h <;> simp
      exact tg_idem_core ticker h (Or.inr ⟨hs', hhj.1, hhj.2⟩)

/-- Claim C7: link normalization is idempotent at both sites — the
`extract_news_links` normalization and the `send_html_content` href
normalization; re-normalizing an already-normalized URL never duplicates the
`doctype`/`docid` query parameters. -/
theorem C7_link_normalization_idempotent :
    (∀ ticker link, normalize_news_link ticker (normalize_news_link ticker link) =
        normalize_news_link ticker link) ∧
      ∀ ticker h o, tg_normalize_href ticker h = some o →
        tg_normalize_href ticker o = some o :=
  ⟨fun t l => normalize_news_link_idem t l, fun t h o ho => tg_normalize_href_idem t h o ho⟩

/-- Witness for `C7_link_normalization_idempotent` at a concrete relative href. -/
theorem C7_link_normalization_idempotent_witness :
    tg_normalize_href blk
        ("https://invest.zum.com/news?docid=1&doctype=news&isdomestic=false&istrending=false".toList) =
      some ("https://invest.zum.com/news?docid=1&doctype=news&isdomestic=false&istrending=false".toList) :=
  C7_link_normalization_idempotent.2 blk ("/news?docid=1".toList) _ (by rfl)

/-! ### Constituent-mention parsing (`scraper.get_zum_briefing`, lines 214–289)

Per stock item the code reads `briefing_content` (the text of the item's
briefing div) and an optional bracketed ticker code from the stock-info div;
`has_stock_info` records whether that stock-info div exists (it gates the
fallback price/change extraction). -/

structure ConstituentMention where
  name : List Char
  price : List Char
  changePercent : List Char
deriving DecidableEq

def commaSep : List Char := ",".toList

def jushigiSpaced : List Char := " 주식이 ".toList

def jushigiWord : List Char := "주식이".toList

def fellMarker : List Char := "하락하여".toList

def roseMarker : List Char := "상승하여".toList

def dollarMarker : List Char := "달러에".toList

/-- Python truthiness of `None`-or-string. -/
def pyTruthy : Option (List Char) → Bool
  | none => false
  | some s => !s.isEmpty

/-- The emission guard `if stock_name and price and change:` (lines 286–289). -/
def emit_mention (n : List Char) (p c : Option (List Char)) :
    Option ConstituentMention :=
  match p, c with
  | some p1, some c1 =>
      if n ≠ [] ∧ p1 ≠ [] ∧ c1 ≠ [] then some ⟨n, p1, c1⟩ else none
  | _, _ => none

/-- Lines 246–261: price/change extraction from
`price_change_match = briefing_content.split(",")[1].strip()`.  On the fell
marker the text before the marker is kept as parsed; on the rose marker a `"+"`
is prepended. -/
def parse_price_change_primary (pcm : List Char) :
    Option (List Char) × Option (List Char) :=
  if containsSub fellMarker pcm then
    let parts := pySplitOn fellMarker pcm
    let change := removeSpaces (pyStrip (parts.headD []))
    let price_parts :=
      if parts.length > 1 then pySplitOn dollarMarker (parts.getD 1 []) else []
    let price : Option (List Char) :=
      match price_parts with
      | [] => none
      | p :: _ => some (pyStrip p)
    (price, some change)
  else if containsSub roseMarker pcm then
    let parts := pySplitOn roseMarker pcm
    let change := "+".toList ++ removeSpaces (pyStrip (parts.headD []))
    let price_parts :=
      if parts.length > 1 then pySplitOn dollarMarker (parts.getD 1 []) else []
    let price : Option (List Char) :=
      match price_parts with
      | [] => none
      | p :: _ => some (pyStrip p)
    (price, some change)
  else (none, none)

/-- Lines 265–283: alternate extraction from the whole `briefing_content`,
run only when price or change is still missing and the stock-info div exists. -/
def parse_price_change_fallback (bc : List Char)
    (prior : Option (List Char) × Option (List Char)) :
    Option (List Char) × Option (List Char) :=
  if containsSub fellMarker bc then
    let parts := pySplitOn fellMarker bc
    let change_part : Option (List Char) :=
      if containsSub jushigiWord (parts.headD []) then
        some (pyStrip ((pySplitOn jushigiWord (parts.headD [])).getD 1 []))
      else none
    let change : Option (List Char) :=
      match change_part with
      | some cp => if cp.isEmpty then none else some (removeSpaces cp)
      | none => none
    let price_parts :=
      if parts.length > 1 then pySplitOn dollarMarker (parts.getD 1 []) else []
    let price : Option (List Char) :=
      match price_parts with
      | [] => none
      | p :: _ => some (pyStrip p)
    (price, change)
  else if containsSub roseMarker bc then
    let parts := pySplitOn roseMarker bc
    let change_part : Option (List Char) :=
      if containsSub jushigiWord (parts.headD []) then
        some (pyStrip ((pySplitOn jushigiWord (parts.headD [])).getD 1 []))
      else none
    let change : Option (List Char) :=
      match change_part with
      | some cp => if cp.isEmpty then none else some ("+".toList ++ removeSpaces cp)
      | none => none
    let price_parts :=
      if parts.length > 1 then pySplitOn dollarMarker (parts.getD 1 []) else []
    let price : Option (List Char) :=
      match price_parts with
      | [] => none
      | p :: _ => some (pyStrip p)
    (price, change)
  else prior

/-- The per-item mention extraction of lines 214–289: name from the text before
the first comma (skipping three date tokens), price/change via the primary
parse on the second comma part with the fallback on the whole text, and the
joint emission guard. -/
def parse_stock_item (bc : List Char) (stock_ticker : Option (List Char))
    (has_stock_info : Bool) : Option ConstituentMention :=
  if containsSub commaSep bc && containsSub jushigiSpaced bc then
    let stock_parts := pySplitWs ((pySplitOn commaSep bc).headD [])
    let base_name := List.intercalate " ".toList (stock_parts.drop 3)
    let stock_name :=
      match stock_ticker with
      | some tk =>
          if tk.isEmpty then base_name
          else base_name ++ " (".toList ++ tk ++ ")".toList
      | none => base_name
    let pcm := pyStrip ((pySplitOn commaSep bc).getD 1 [])
    let primary := parse_price_change_primary pcm
    let final :=
      if (!(pyTruthy primary.1) || !(pyTruthy primary.2)) && has_stock_info then
        parse_price_change_fallback bc primary
      else primary
    emit_mention stock_name final.1 final.2
  else none

theorem emit_mention_fields {n : List Char} {p c : Option (List Char)}
    {m : ConstituentMention} (h : emit_mention n p c = some m) :
    m.price ≠ [] ∧ m.changePercent ≠ [] := by
  cases p with
  | none => simp [emit_mention] at h
  | some p1 =>
      cases c with
      | none => simp [emit_mention] at h
      | some c1 =>
          simp only [emit_mention] at h
          split at h
          · obtain rfl := Option.some.inj h
            rename_i hg
            exact ⟨hg.2.1, hg.2.2⟩
          · cases h

/-- Claim C9: every emitted constituent mention carries both a non-empty price
and a non-empty change percentage — the extractor never emits one without the
other; partial parses are dropped by the emission guard, not emitted. -/
theorem C9_mention_price_change_paired (bc : List Char)
    (stock_ticker : Option (List Char)) (has_stock_info : Bool)
    (m : ConstituentMention)
    (h : parse_stock_item bc stock_ticker has_stock_info = some m) :
    m.price ≠ [] ∧ m.changePercent ≠ [] := by
  unfold parse_stock_item at h
  split at h
  · exact emit_mention_fields h
  · cases h

/-- Witness for `C9_mention_price_change_paired` at a concrete parsed mention. -/
theorem C9_mention_price_change_paired_witness :
    "878.42".toList ≠ ([] : List Char) ∧ "+주식이1.5%".toList ≠ ([] : List Char) :=
  C9_mention_price_change_paired
    ("2025년 04월 01일 테슬라, 주식이 1.5% 상승하여 878.42달러에 마감했습니다.".toList)
    none false ⟨"테슬라".toList, "878.42".toList, "+주식이1.5%".toList⟩ (by rfl)

/-- Claim C4 counterexample: on the claim's "rose" example segment the code
yields `changePercent = "+주식이1.5%"`, not `"+1.5"` (the split keeps the
`주식이` token and the percent sign); on the analogous "fell" segment with
magnitude 2.0 and price 45.10 it yields `"주식이2.0%"`, not `"-2.0"` (no sign is
ever prepended on the fell branch). -/
theorem C4_directional_parsing_counterexample :
    (parse_stock_item
        ("2025년 04월 01일 테슬라, 주식이 1.5% 상승하여 878.42달러에 마감했습니다.".toList)
        none false).map ConstituentMention.changePercent ≠ some ("+1.5".toList) ∧
      (parse_stock_item
        ("2025년 04월 01일 브로드컴, 주식이 2.0% 하락하여 45.10달러에 마감했습니다.".toList)
        none false).map ConstituentMention.changePercent ≠ some ("-2.0".toList) := by
  constructor <;> decide

/-- Claim C4 amended: on the rose marker the code prepends `"+"` to the whole
comma-to-marker text with spaces removed (so the `주식이` token and the `%` sign
survive into `changePercent`), and the price is the text before `달러에` after
the marker; on the fell marker the comma-to-marker text is kept verbatim with
no sign prepended, so `-2.0` would appear only if the source itself carried the
explicit minus sign. -/
theorem C4_directional_parsing_amended :
    parse_stock_item
        ("2025년 04월 01일 테슬라, 주식이 1.5% 상승하여 878.42달러에 마감했습니다.".toList)
        none false =
      some ⟨"테슬라".toList, "878.42".toList, "+주식이1.5%".toList⟩ ∧
      parse_stock_item
        ("2025년 04월 01일 브로드컴, 주식이 2.0% 하락하여 45.10달러에 마감했습니다.".toList)
        none false =
      some ⟨"브로드컴".toList, "45.10".toList, "주식이2.0%".toList⟩ := by
  constructor <;> rfl

/-! ### Briefing assembly and the never-raise boundary
(`scraper.get_zum_briefing`, lines 96–442)

The whole body of `get_zum_briefing` runs inside a single
`try`/`except Exception` block; the `outcome` argument abstracts that try body:
`.error e` models an exception raised anywhere inside it (with message `e`),
`.ok none` models the body finishing with `briefing = None`, and `.ok (some s)`
models it finishing with `briefing = s` (line 429's truthiness test separates
`""` from text). -/

def error_mid : List Char := ": 오류 발생 - ".toList

def no_briefing_suffix : List Char := ": 브리핑 없음".toList

/-- Lines 429–442: final assembly and the exception handler of
`get_zum_briefing`. -/
def get_zum_briefing (ticker : List Char)
    (outcome : Except (List Char) (Option (List Char))) : List Char :=
  match outcome with
  | .error e => ticker ++ error_mid ++ e
  | .ok (some s) =>
      if !s.isEmpty then
        let s1 :=
          if (ticker ++ ":".toList).isPrefixOf s then
            pyStrip (replaceFirstEmpty (ticker ++ ":".toList) s)
          else s
        ticker ++ ":\n".toList ++ s1
      else ticker ++ no_briefing_suffix
  | .ok none => ticker ++ no_briefing_suffix

/-- Claim C8: the extractor never raises past its boundary — whatever exception
the try body raises, `get_zum_briefing` still returns a plain result string for
the ticker, the ERROR-style string that embeds the exception message (the
message is a suffix of the returned string). -/
theorem C8_extractor_never_raises (ticker e : List Char) :
    get_zum_briefing ticker (.error e) = ticker ++ error_mid ++ e ∧
      e.isSuffixOf (get_zum_briefing ticker (.error e)) = true :=
  ⟨rfl, List.isSuffixOf_iff_suffix.mpr (List.suffix_append (ticker ++ error_mid) e)⟩

theorem prefix_colon (ticker rest : List Char) :
    (ticker ++ ":".toList) <+: ticker ++ (':' :: rest) := by
  refine ⟨rest, ?_⟩
  simp [List.append_assoc]

/-- Claim C10: for every ticker and every outcome — extracted briefing, missing
or empty briefing, or internal error — the string returned by
`get_zum_briefing` starts with the ticker followed by `":"`, the invariant the
delivery layer relies on when it recovers the ticker by splitting on the first
colon. -/
theorem C10_result_starts_with_ticker_colon (ticker : List Char)
    (outcome : Except (List Char) (Option (List Char))) :
    (ticker ++ ":".toList) <+: get_zum_briefing ticker outcome := by
  cases outcome with
  | error e =>
      show (ticker ++ ":".toList) <+: ticker ++ error_mid ++ e
      rw [List.append_assoc]
      exact prefix_colon ticker _
  | ok b =>
      cases b with
      | none => exact prefix_colon ticker _
      | some s =>
          simp only [get_zum_briefing]
          split
          · rw [List.append_assoc]
            exact prefix_colon ticker _
          · exact prefix_colon ticker _

/-! ### Orchestration (`scraper.scrape_all_tickers`, lines 444–488, and
`main.run_scraper`, lines 40–122)

`FetchBehavior` is the per-ticker execution oracle: `slow` records whether
`get_zum_briefing(ticker)` would exceed the 30-second bound that
`asyncio.wait_for` applies, and `outcome` records how the per-ticker processing
ends when allowed to finish — `.ok s` is the string `get_zum_briefing` returns,
`.error e` an exception escaping into the loop's `except` clause. -/

structure FetchBehavior where
  slow : Bool
  outcome : Except (List Char) (List Char)

/-- The loop's `except Exception` handler (line 486) versus a normal result. -/
def handle_outcome (t : List Char) : Except (List Char) (List Char) → List Char
  | .ok s => s
  | .error e => t ++ error_mid ++ e

def igv_timeout_fallback : List Char :=
  ("IGV:\n데일리 브리핑\n\nISHARES TRUST EXPANDED TECH-SOFTWARE SECTOR ETF에 대한 브리핑을 가져오는 데 시간이 초과되었습니다. 수동으로 확인해주세요: https://invest.zum.com/etf/IGV/").toList

def soxl_timeout_fallback : List Char :=
  ("SOXL:\n데일리 브리핑\n\nDIREXION SHARES ETF TRUST DAILY SEMICONDUCTOR BULL 3X SHS에 대한 브리핑을 가져오는 데 시간이 초과되었습니다. 수동으로 확인해주세요: https://invest.zum.com/etf/SOXL/").toList

/-- One iteration of the `for ticker in tickers` loop (lines 456–486): only IGV
and SOXL are wrapped in the 30-second `asyncio.wait_for`; on their timeout the
hand-written fallback is appended; every other ticker runs to completion with
no per-ticker timeout. -/
def process_ticker (behave : List Char → FetchBehavior) (t : List Char) :
    List (List Char) :=
  if t = igv ∨ t = soxl then
    if (behave t).slow then
      if t = igv then [igv_timeout_fallback]
      else if t = soxl then [soxl_timeout_fallback]
      else []
    else [handle_outcome t (behave t).outcome]
  else [handle_outcome t (behave t).outcome]

/-- `scrape_all_tickers`: the sequential per-ticker loop. -/
def scrape_all_tickers (behave : List Char → FetchBehavior) :
    List (List Char) → List (List Char)
  | [] => []
  | t :: ts => process_ticker behave t ++ scrape_all_tickers behave ts

def etf_section_tickers : List (List Char) := [igv, soxl, brku]

/-- The aggregate-timeout fallback built per ticker in `main.run_scraper`
lines 96–99 (identically in `scheduler.ETFScraperScheduler.run_scraper`
lines 94–100). -/
def aggregate_timeout_fallback (t : List Char) : List Char :=
  t ++ (":\n데일리 브리핑\n\n시간 초과로 인해 브리핑을 가져오지 못했습니다. 수동으로 확인해주세요: https://invest.zum.com/").toList ++
    (if t ∈ etf_section_tickers then "etf".toList else "stock".toList) ++
    "/".toList ++ t ++ "/".toList

/-- `main.run_scraper` as far as delivered briefing content is concerned: the
submitted tickers are sorted (or default to the canonical order), then the
whole batch runs under `asyncio.wait_for(..., timeout=120)`.
`aggregate = none` means the aggregate timeout never fired and the per-ticker
results are delivered; `aggregate = some k` means it fired after `k` tickers
had completed — `asyncio.wait_for` cancels the coroutine, its local partial
result list is lost, and the `except asyncio.TimeoutError` handler regenerates
a fallback for every ticker of the batch (lines 93–99). -/
def run_scraper (behave : List Char → FetchBehavior)
    (tickers : Option (List (List Char))) (aggregate : Option Nat) :
    List (List Char) :=
  let ts := match tickers with
    | none => default_order
    | some l => sortTickers l
  match aggregate with
  | none => scrape_all_tickers behave ts
  | some _ => ts.map aggregate_timeout_fallback

/-- A batch execution in which every ticker completes quickly with an
extracted briefing. -/
def good_behavior : List Char → FetchBehavior :=
  fun t => ⟨false, .ok (t ++ ":\n추출된 브리핑".toList)⟩

/-- A batch execution in which BLK exceeds the 30-second per-ticker bound but,
left to finish, returns an ordinary extracted briefing. -/
def slow_blk_behavior : List Char → FetchBehavior :=
  fun t =>
    if t = blk then ⟨true, .ok ("BLK:\n좋은 브리핑".toList)⟩
    else ⟨false, .ok (t ++ ":\n브리핑".toList)⟩

/-- A batch execution in which every ticker exceeds the per-ticker bound. -/
def slow_behavior : List Char → FetchBehavior :=
  fun _ => ⟨true, .ok []⟩

theorem process_ticker_length (behave : List Char → FetchBehavior)
    (t : List Char) : (process_ticker behave t).length = 1 := by
  unfold process_ticker
  split
  · split
    · rename_i hior _
      rcases hior with rfl | rfl
      · rw [if_pos rfl]
        rfl
      · rw [if_neg (by decide), if_pos rfl]
        rfl
    · rfl
  · rfl

theorem scrape_all_tickers_length (behave : List Char → FetchBehavior)
    (ts : List (List Char)) : (scrape_all_tickers behave ts).length = ts.length := by
  induction ts with
  | nil => rfl
  | cons t ts ih =>
      show (process_ticker behave t ++ scrape_all_tickers behave ts).length = ts.length + 1
      rw [List.length_append, ih, process_ticker_length]
      omega

/-- Claim C3 counterexample: BLK's fetch+extract exceeds the 30-second
per-ticker bound (`slow = true`), yet the orchestrator delivers its ordinary
extracted result — no TIMEOUT fallback and no manual-check URL — because only
IGV and SOXL are wrapped in `asyncio.wait_for`. -/
theorem C3_per_ticker_timeout_counterexample :
    scrape_all_tickers slow_blk_behavior [blk] = ["BLK:\n좋은 브리핑".toList] ∧
      containsSub ("https://invest.zum.com/stock/BLK/".toList)
        ("BLK:\n좋은 브리핑".toList) = false ∧
      containsSub ("시간 초과".toList) ("BLK:\n좋은 브리핑".toList) = false :=
  ⟨rfl, by decide, by decide⟩

/-- Claim C3 amended: only IGV and SOXL carry the 30-second per-ticker timeout.
When one of them exceeds it, the orchestrator emits that ticker's TIMEOUT
fallback, whose narrative ends with the manual-check URL built from the
ticker's canonical (etf) section path, and every submitted ticker — timed out
or not — contributes exactly one delivered result, so no result is silently
dropped; tickers outside {IGV, SOXL} run to completion with no per-ticker
timeout. -/
theorem C3_per_ticker_timeout_amended :
    (∀ (behave : List Char → FetchBehavior) (t : List Char),
        (t = igv ∨ t = soxl) → (behave t).slow = true →
        process_ticker behave t =
            [if t = igv then igv_timeout_fallback else soxl_timeout_fallback] ∧
          ("https://invest.zum.com/etf/".toList ++ t ++ "/".toList).isSuffixOf
            ((process_ticker behave t).getD 0 []) = true) ∧
      (∀ (behave : List Char → FetchBehavior) (t : List Char),
        ¬ (t = igv ∨ t = soxl) →
        process_ticker behave t = [handle_outcome t (behave t).outcome]) ∧
      ∀ (behave : List Char → FetchBehavior) (ts : List (List Char)),
        (scrape_all_tickers behave ts).length = ts.length := by
  refine ⟨?_, ?_, scrape_all_tickers_length⟩
  · intro behave t ht hslow
    rcases ht with rfl | rfl
    · refine ⟨?_, ?_⟩ <;>
        · unfold process_ticker
          rw [if_pos (Or.inl rfl), if_pos hslow, if_pos rfl]
          decide
    · refine ⟨?_, ?_⟩ <;>
        · unfold process_ticker
          rw [if_pos (Or.inr rfl), if_pos hslow, if_neg (by decide), if_pos rfl]
          decide
  · intro behave t ht
    unfold process_ticker
    rw [if_neg ht]

/-- Witness for `C3_per_ticker_timeout_amended` with IGV timing out. -/
theorem C3_per_ticker_timeout_amended_witness :
    process_ticker slow_behavior igv =
        [if igv = igv then igv_timeout_fallback else soxl_timeout_fallback] ∧
      ("https://invest.zum.com/etf/".toList ++ igv ++ "/".toList).isSuffixOf
        ((process_ticker slow_behavior igv).getD 0 []) = true :=
  C3_per_ticker_timeout_amended.1 slow_behavior igv (Or.inl rfl) rfl

/-- Claim C1 counterexample: five tickers, each completing with an extracted
briefing; the aggregate timeout fires after two completions, and the delivered
result for IGV (which had completed) is the regenerated TIMEOUT fallback, not
its extracted content — completed results are not preserved. -/
theorem C1_aggregate_timeout_counterexample :
    (run_scraper good_behavior none (some 2)).getD 0 [] =
        aggregate_timeout_fallback igv ∧
      process_ticker good_behavior igv = ["IGV:\n추출된 브리핑".toList] ∧
      aggregate_timeout_fallback igv ≠ "IGV:\n추출된 브리핑".toList :=
  ⟨rfl, rfl, by decide⟩

/-- Claim C1 amended: when the aggregate timeout fires mid-batch, every ticker
of the batch — including those whose fetch+extract had already completed — is
delivered the TIMEOUT-style fallback; the completed results are discarded, not
preserved, because the `except asyncio.TimeoutError` handler rebuilds the
result list from the ticker list alone. -/
theorem C1_aggregate_timeout_amended (behave : List Char → FetchBehavior)
    (ts : List (List Char)) (k : Nat) :
    run_scraper behave (some ts) (some k) =
        (sortTickers ts).map aggregate_timeout_fallback ∧
      ∀ r ∈ run_scraper behave (some ts) (some k),
        containsSub ("시간 초과로 인해".toList) r = true := by
  refine ⟨rfl, ?_⟩
  intro r hr
  simp only [run_scraper, List.mem_map] at hr
  obtain ⟨t, _, rfl⟩ := hr
  unfold aggregate_timeout_fallback
  have c1 : containsSub ("시간 초과로 인해".toList)
      (t ++ (":\n데일리 브리핑\n\n시간 초과로 인해 브리핑을 가져오지 못했습니다. 수동으로 확인해주세요: https://invest.zum.com/").toList) = true :=
    containsSub_append_right _ _ _ (by decide)
  exact containsSub_append_left _ _ _ (containsSub_append_left _ _ _
    (containsSub_append_left _ _ _ (containsSub_append_left _ _ _ c1)))

/-- Witness for `C1_aggregate_timeout_amended` at a one-ticker batch. -/
theorem C1_aggregate_timeout_amended_witness :
    containsSub ("시간 초과로 인해".toList) (aggregate_timeout_fallback igv) = true :=
  (C1_aggregate_timeout_amended good_behavior [igv] 0).2
    (aggregate_timeout_fallback igv) (by decide)

end ETFBriefing
